import Mathlib

/-!
Shallow embedding of the medi-chal dataset-management layer
(src/code/auto_ml/auto_ml.py, src/code/auto_ml/comparator.py,
src/code/processing/processing.py) and proofs about its
subset-addressing, preprocessing and comparison logic.

Tables are modelled as an index of row labels, a list of column names and
an entry function; cell values are rationals, strings or a missing marker
(pandas NaN).  The helper modules `imputation`, `normalization` and
`encoding` are imported by auto_ml.py but absent from the repository
sources; their per-column operations are modelled from the specification
and marked as such in their doc comments.
-/

namespace MediChal

/-- A cell of a pandas table: a numeric value, a string, or missing (NaN). -/
inductive Cell where
  | num (q : ℚ)
  | str (s : String)
  | nan
deriving DecidableEq, Repr

/-- Numeric payload of a cell, if any. -/
def cellNum : Cell → Option ℚ
  | Cell.num q => some q
  | _ => none

/-- Whether a cell holds a numeric value. -/
def isNumC : Cell → Bool
  | Cell.num _ => true
  | _ => false

/-- Whether a cell holds a string, mirroring Python isinstance(i, str). -/
def isStrC : Cell → Bool
  | Cell.str _ => true
  | _ => false

/-- The numeric values of a list of cells (pandas skips NaN). -/
def numVals (xs : List Cell) : List ℚ :=
  xs.filterMap cellNum

/-- Mean of a list of rationals (pandas Series.mean over non-missing values). -/
def qmean (l : List ℚ) : ℚ :=
  l.sum / l.length

/-- Insert a value into a sorted list, keeping it sorted. -/
def insertSorted (x : ℚ) : List ℚ → List ℚ
  | [] => [x]
  | y :: ys => if x ≤ y then x :: y :: ys else y :: insertSorted x ys

/-- Insertion sort for rationals. -/
def qsort : List ℚ → List ℚ
  | [] => []
  | x :: xs => insertSorted x (qsort xs)

/-- Median of a list of rationals, averaging the two middle elements of the
sorted list for even lengths (pandas Series.median). -/
def qmedian (l : List ℚ) : ℚ :=
  let s := qsort l
  (s.getD ((l.length - 1) / 2) 0 + s.getD (l.length / 2) 0) / 2

/-- Sample variance with denominator n-1 (pandas Series.var, ddof = 1). -/
def sampleVar (l : List ℚ) : ℚ :=
  (l.map (fun v => (v - qmean l) ^ 2)).sum / ((l.length : ℚ) - 1)

/-- Deduplicate keeping first occurrences. -/
def firstOccDedup (xs : List Cell) : List Cell :=
  xs.foldl (fun acc c => if c ∈ acc then acc else acc ++ [c]) []

/-- Most frequent non-missing cell value (earliest first occurrence on ties). -/
def mostCommon (xs : List Cell) : Cell :=
  let cand := firstOccDedup (xs.filter (fun c => c ≠ Cell.nan))
  match cand.foldl (fun acc c =>
      match acc with
      | none => some c
      | some b => if xs.count b < xs.count c then some c else acc) none with
  | some c => c
  | none => Cell.nan

/-- A pandas DataFrame: row labels, column names, and the cell at each
row label and column name. -/
structure Frame where
  index : List Nat
  cols : List String
  entry : Nat → String → Cell

/-- The cells of one column, in row-index order. -/
def colCells (f : Frame) (c : String) : List Cell :=
  f.index.map (fun r => f.entry r c)

/-- Replace the missing entries of one column by a fixed value
(pandas fillna on that column). -/
def fillna (f : Frame) (c : String) (v : Cell) : Frame :=
  { f with entry := fun r c' =>
      if c' = c ∧ f.entry r c' = Cell.nan then v else f.entry r c' }

/-- Apply a rational function to a numeric cell, leaving strings and
missing cells unchanged. -/
def cellMapNum (g : ℚ → ℚ) : Cell → Cell
  | Cell.num v => Cell.num (g v)
  | x => x

/-- Apply a rational function to the numeric entries of one column,
leaving other columns and non-numeric cells unchanged. -/
def mapNumCol (f : Frame) (c : String) (g : ℚ → ℚ) : Frame :=
  { f with entry := fun r c' =>
      if c' = c then cellMapNum g (f.entry r c') else f.entry r c' }

/-! ### Type inference (src/code/processing/processing.py, get_types) -/

/-- Result of pandas Series.sum on a column: a number (NaN skipped), a
concatenated string for an all-string column, or a TypeError for mixed
content, which get_types catches and treats as sum = -infinity. -/
inductive PySum where
  | q (v : ℚ)
  | s (t : String)
  | err
deriving DecidableEq, Repr

/-- Sum of a column as computed inside get_types: pandas sum skipping NaN,
with mixed string/number content raising (caught as -infinity). -/
def colSum (xs : List Cell) : PySum :=
  let ys := xs.filter (fun c => c ≠ Cell.nan)
  if ys.all isNumC then PySum.q (numVals ys).sum
  else if ys.all isStrC then
    PySum.s (ys.foldl (fun a c => match c with | Cell.str s => a ++ s | _ => a) "")
  else PySum.err

/-- The triangular-number test of get_types: sum == n*(n-1)/2 or
sum == n*(n+1)/2; false whenever the sum is not a number (a string
concatenation or the -infinity stand-in both fail both comparisons). -/
def triBool : PySum → Nat → Bool
  | PySum.q v, n =>
      decide (v = (n : ℚ) * ((n : ℚ) - 1) / 2) || decide (v = (n : ℚ) * ((n : ℚ) + 1) / 2)
  | _, _ => false

/-- Type of one column, from processing.get_types: two unique values give
Binary; else a triangular sum over more than two unique values, or any
string value, gives Categorical; everything else gives Numerical. -/
def get_type (xs : List Cell) : String :=
  let n := xs.dedup.length
  if n = 2 then "Binary"
  else if (2 < n ∧ triBool (colSum xs) n) ∨ xs.any isStrC then "Categorical"
  else "Numerical"

/-- processing.get_types: the type of each column of a table. -/
def get_types (f : Frame) : List String :=
  f.cols.map (fun c => get_type (colCells f c))

/-! ### The AutoML dataset container (src/code/auto_ml/auto_ml.py) -/

/-- The state of an AutoML object: the shared row index, the feature and
label column names, the per-feature types, the train/test row selections
held in the subsets dictionary, the feat_num entry of the info dictionary,
and the raw and processed tables (both share the row index, as
processed_data starts as data.copy and is only written through
label-aligned loc assignment). -/
structure DS where
  index : List Nat
  featCols : List String
  labelCols : List String
  featType : List String
  trainIdx : List Nat
  testIdx : List Nat
  infoFeatNum : Nat
  raw : Nat → String → Cell
  processed : Nat → String → Cell

/-- All column names of the data table: features then labels, in the
concatenation order used by init_data. -/
def allCols (ds : DS) : List String :=
  ds.featCols ++ ds.labelCols

/-- The feature columns whose feat_type entry equals t, in column order
(the list comprehension over enumerate(self.feat_type)). -/
def typedCols (ds : DS) (t : String) : List String :=
  ((ds.featCols.zip ds.featType).filter (fun p => p.2 = t)).map Prod.fst

/-- The feature columns typed Binary or Categorical, as selected by the
encoding method. -/
def typedColsBC (ds : DS) : List String :=
  ((ds.featCols.zip ds.featType).filter
    (fun p => p.2 = "Binary" ∨ p.2 = "Categorical")).map Prod.fst

/-- get_data of the X subset of the processed table: all rows, feature
columns. -/
def getX (ds : DS) : Frame :=
  ⟨ds.index, ds.featCols, ds.processed⟩

/-- get_data of the X_train subset of the processed table: train rows,
feature columns. -/
def getXtrain (ds : DS) : Frame :=
  ⟨ds.trainIdx, ds.featCols, ds.processed⟩

/-- get_data of the X_test subset of the processed table: test rows,
feature columns. -/
def getXtest (ds : DS) : Frame :=
  ⟨ds.testIdx, ds.featCols, ds.processed⟩

/-- set_data of the X subset of the processed table: pandas loc assignment
over all rows and the feature columns, label-aligned against the assigned
frame, with absent labels filled as missing. -/
def setDataX (ds : DS) (v : Frame) : DS :=
  { ds with processed := fun r c =>
      if r ∈ ds.index ∧ c ∈ ds.featCols then
        (if r ∈ v.index ∧ c ∈ v.cols then v.entry r c else Cell.nan)
      else ds.processed r c }

/-- set_data of the X_train subset of the processed table: loc assignment
over the train row selection and the feature columns. -/
def setDataXtrain (ds : DS) (v : Frame) : DS :=
  { ds with processed := fun r c =>
      if r ∈ ds.trainIdx ∧ c ∈ ds.featCols then
        (if r ∈ v.index ∧ c ∈ v.cols then v.entry r c else Cell.nan)
      else ds.processed r c }

/-- set_data of the X_test subset of the processed table: loc assignment
over the test row selection and the feature columns. -/
def setDataXtest (ds : DS) (v : Frame) : DS :=
  { ds with processed := fun r c =>
      if r ∈ ds.testIdx ∧ c ∈ ds.featCols then
        (if r ∈ v.index ∧ c ∈ v.cols then v.entry r c else Cell.nan)
      else ds.processed r c }

/-! ### Imputation (AutoML._impute / AutoML.imputation; the imported
imputation module is absent from the sources, its per-column operations
are modelled from the spec) -/

/-- Modelled from the spec: imputation.remove, absent from the sources,
drops the rows that contain a missing value in any of the given columns. -/
def imputeRemove (f : Frame) (cols : List String) : Frame :=
  { f with index := f.index.filter (fun r => cols.all (fun c => f.entry r c ≠ Cell.nan)) }

/-- Modelled from the spec: imputation.median, absent from the sources,
fills the missing entries of the column with the median of the non-missing
values of that column of the frame it is given. -/
def imputeMedian (f : Frame) (c : String) : Frame :=
  fillna f c (Cell.num (qmedian (numVals (colCells f c))))

/-- Modelled from the spec: imputation.mean, absent from the sources,
fills the missing entries of the column with the mean of the non-missing
values of that column of the frame it is given. -/
def imputeMean (f : Frame) (c : String) : Frame :=
  fillna f c (Cell.num (qmean (numVals (colCells f c))))

/-- Modelled from the spec: imputation.most, absent from the sources,
fills the missing entries of the column with the most frequent non-missing
value of that column of the frame it is given. -/
def imputeMost (f : Frame) (c : String) : Frame :=
  fillna f c (mostCommon (colCells f c))

/-- AutoML._impute: dispatch on the policy name; remove, median, mean and
most are applied to the given frame, None and the strings None/none are an
explicit no-op, and any other name raises OSError. -/
def imputeDispatch (data : Frame) (columns : List String) (how : Option String) :
    Except String Frame :=
  if how = some "remove" then .ok (imputeRemove data columns)
  else if how = some "median" then .ok (columns.foldl imputeMedian data)
  else if how = some "mean" then .ok (columns.foldl imputeMean data)
  else if how = some "most" then .ok (columns.foldl imputeMost data)
  else if how = none ∨ how = some "None" ∨ how = some "none" then .ok data
  else .error "OSError: imputation is not taken in charge"

/-- AutoML.imputation: takes the full X subset of the processed table,
imputes the Binary, then Categorical, then Numerical columns with their
respective policies, and writes the result back over X. -/
def imputationStage (ds : DS) (binary categorical numerical : Option String) :
    Except String DS := do
  let d0 := getX ds
  let d1 ← imputeDispatch d0 (typedCols ds "Binary") binary
  let d2 ← imputeDispatch d1 (typedCols ds "Categorical") categorical
  let d3 ← imputeDispatch d2 (typedCols ds "Numerical") numerical
  .ok (setDataX ds d3)

/-! ### Normalization (AutoML.normalization; the imported normalization
module is absent from the sources, its per-column operations are modelled
from the spec) -/

/-- Smallest element of a list of rationals. -/
def qminL : List ℚ → ℚ
  | [] => 0
  | x :: xs => xs.foldl min x

/-- Largest element of a list of rationals. -/
def qmaxL : List ℚ → ℚ
  | [] => 0
  | x :: xs => xs.foldl max x

/-- Modelled from the spec: normalization.standard, absent from the
sources; without given parameters it computes the mean and standard
deviation of the non-missing column values and returns them with the
transformed frame, with given parameters it reuses them; each numeric
entry v of the column becomes (v - mean) / std.  The irrational square
root inside the standard deviation is abstracted as the function argument
stdFn, constrained in the theorems by stdFn l * stdFn l = sampleVar l. -/
def standard (stdFn : List ℚ → ℚ) (f : Frame) (c : String)
    (params : Option (ℚ × ℚ)) : Frame × (ℚ × ℚ) :=
  let p := match params with
    | some p => p
    | none => (qmean (numVals (colCells f c)), stdFn (numVals (colCells f c)))
  (mapNumCol f c (fun v => (v - p.1) / p.2), p)

/-- Modelled from the spec: normalization.min_max, absent from the
sources; without given parameters it computes the minimum and maximum of
the non-missing column values, with given parameters it reuses them; each
numeric entry v becomes (v - min) / (max - min). -/
def minMax (f : Frame) (c : String) (params : Option (ℚ × ℚ)) :
    Frame × (ℚ × ℚ) :=
  let p := match params with
    | some p => p
    | none => (qminL (numVals (colCells f c)), qmaxL (numVals (colCells f c)))
  (mapNumCol f c (fun v => (v - p.1) / (p.2 - p.1)), p)

/-- One iteration of the loop of AutoML.normalization over a numerical
column: under standard or min-max the parameters are fit on the train
frame and reused on the test frame; any other policy name leaves both
frames unchanged (neither branch of the if/elif chain fires). -/
def normStep (norm : String) (stdFn : List ℚ → ℚ) (st : Frame × Frame)
    (c : String) : Frame × Frame :=
  if norm = "standard" then
    let tr := standard stdFn st.1 c none
    (tr.1, (standard stdFn st.2 c (some tr.2)).1)
  else if norm = "min-max" then
    let tr := minMax st.1 c none
    (tr.1, (minMax st.2 c (some tr.2)).1)
  else st

/-- AutoML.normalization: loop over the Numerical columns transforming the
X_train and X_test subsets of the processed table, then write both back. -/
def normalizationRun (ds : DS) (norm : String) (stdFn : List ℚ → ℚ) : DS :=
  let st := (typedCols ds "Numerical").foldl (normStep norm stdFn)
    (getXtrain ds, getXtest ds)
  setDataXtest (setDataXtrain ds st.1) st.2

/-- AutoML.normalization as an operation that may signal an error: the
method body has no raise path, so the result is always returned. -/
def normalizationStage (ds : DS) (norm : String) (stdFn : List ℚ → ℚ) :
    Except String DS :=
  .ok (normalizationRun ds norm stdFn)

/-! ### Encoding (AutoML.encoding; the imported encoding module is absent
from the sources, its per-column operations are modelled from the spec) -/

/-- Modelled from the spec: encoding.label, absent from the sources; the
mapping fit on a frame is the list of distinct non-missing values of the
column in first-occurrence order, each value is replaced by its position
in the mapping, and a missing or unseen value maps to missing. -/
def labelEnc (f : Frame) (c : String) (mp : Option (List Cell)) :
    Frame × List Cell :=
  let m := mp.getD (firstOccDedup ((colCells f c).filter (fun x => x ≠ Cell.nan)))
  ({ f with entry := fun r c' =>
      if c' = c then
        match m.findIdx? (fun x => x = f.entry r c') with
        | some k => Cell.num k
        | none => Cell.nan
      else f.entry r c' }, m)

/-- Name of the k-th indicator column produced by one-hot encoding a
column. -/
def oneHotName (c : String) (k : Nat) : String :=
  c ++ "=" ++ toString k

/-- Modelled from the spec: encoding.one_hot, absent from the sources;
the encoded column is dropped and one indicator column per fitted
category is appended, holding 1 where the row value equals that category
and 0 elsewhere. -/
def oneHotEnc (f : Frame) (c : String) (mp : Option (List Cell)) :
    Frame × List Cell :=
  let m := mp.getD (firstOccDedup ((colCells f c).filter (fun x => x ≠ Cell.nan)))
  ({ index := f.index,
     cols := f.cols.filter (fun c' => c' ≠ c) ++ (List.range m.length).map (oneHotName c),
     entry := fun r c' =>
       match (List.range m.length).find? (fun k => c' = oneHotName c k) with
       | some k => Cell.num (if m.findIdx? (fun x => x = f.entry r c) = some k then 1 else 0)
       | none => f.entry r c' }, m)

/-- Modelled from the spec: encoding.likelihood, absent from the sources,
replaces each category by the train-target mean for that category; the
call site passes no label data, so the target-dependent statistic is not
recoverable from the call inputs; modelled as the identity transform with
the fitted category list as mapping (no claim exercises this policy). -/
def likelihoodEnc (f : Frame) (c : String) (mp : Option (List Cell)) :
    Frame × List Cell :=
  let m := mp.getD (firstOccDedup ((colCells f c).filter (fun x => x ≠ Cell.nan)))
  (f, m)

/-- The per-column encoder bound to the name f by the if/elif chain of
AutoML.encoding, when one is. -/
def encFor (code : String) :
    Option (Frame → String → Option (List Cell) → Frame × List Cell) :=
  if code = "one-hot" then some oneHotEnc
  else if code = "likelihood" then some likelihoodEnc
  else if code = "label" then some labelEnc
  else none

/-- One iteration of the loop of AutoML.encoding over a Binary or
Categorical column: the mapping is fit on the train frame and reused on
the test frame. -/
def encStep (f : Frame → String → Option (List Cell) → Frame × List Cell)
    (st : Frame × Frame) (c : String) : Frame × Frame :=
  let tr := f st.1 c none
  (tr.1, (f st.2 c (some tr.2)).1)

/-- AutoML.encoding: encode the Binary and Categorical columns of the
X_train and X_test subsets of the processed table and write both back.
When the policy name matches none of one-hot, likelihood and label, the
local name f stays unbound: the first loop iteration raises NameError, so
an unrecognized policy only fails when such a column exists, and silently
writes the frames back unchanged otherwise. -/
def encodingStage (ds : DS) (code : String) : Except String DS :=
  let tr := getXtrain ds
  let te := getXtest ds
  let cols := typedColsBC ds
  match encFor code with
  | some f =>
      let st := cols.foldl (encStep f) (tr, te)
      .ok (setDataXtest (setDataXtrain ds st.1) st.2)
  | none =>
      if cols = [] then .ok (setDataXtest (setDataXtrain ds tr) te)
      else .error "NameError: name f is not defined"

/-! ### The full pipeline (AutoML.process_data) and the comparator
(src/code/auto_ml/comparator.py) -/

/-- AutoML.process_data: reset the processed table to a fresh copy of the
raw table, then encode, impute and normalize in that order. -/
def processData (ds : DS) (norm code : String)
    (binary categorical numerical : Option String) (stdFn : List ℚ → ℚ) :
    Except String DS := do
  let ds0 := { ds with processed := ds.raw }
  let ds1 ← encodingStage ds0 code
  let ds2 ← imputationStage ds1 binary categorical numerical
  normalizationStage ds2 norm stdFn

/-- AutoML.process_data with its default arguments, as invoked by
Comparator.process_data: norm standard, code label, missing
[most, most, median]. -/
def processDataDefaults (ds : DS) (stdFn : List ℚ → ℚ) : Except String DS :=
  processData ds "standard" "label" (some "most") (some "most") (some "median") stdFn

/-- The observable steps of Comparator.__init__, in program order. -/
inductive CEvent where
  | processData1
  | processData2
  | featNumCheck
  | descriptors
  | comparisonMatrix
deriving DecidableEq, Repr

/-- Comparator.__init__: process both datasets with the default policies,
then assert that their info feat_num entries agree, and only then compute
the descriptor distances and the per-column comparison matrix (both
delegated to external statistics routines, recorded here as events).  The
returned pair holds the two mutated dataset states. -/
def comparatorInit (ds1 ds2 : DS) (stdFn : List ℚ → ℚ) :
    List CEvent × Except String (DS × DS) :=
  match processDataDefaults ds1 stdFn with
  | .error e => ([CEvent.processData1], .error e)
  | .ok d1 =>
    match processDataDefaults ds2 stdFn with
    | .error e => ([CEvent.processData1, CEvent.processData2], .error e)
    | .ok d2 =>
      if d1.infoFeatNum = d2.infoFeatNum then
        ([CEvent.processData1, CEvent.processData2, CEvent.featNumCheck,
          CEvent.descriptors, CEvent.comparisonMatrix], .ok (d1, d2))
      else
        ([CEvent.processData1, CEvent.processData2, CEvent.featNumCheck],
          .error "AssertionError: datasets do not have the same features number")

/-! ### Saving (AutoML.save) -/

/-- A value written to disk by AutoML.save: a table, a list of names, or
the info dictionary. -/
inductive WVal where
  | frame (f : Frame)
  | names (ns : List String)
  | info

/-- The raw-table X subset (all rows, feature columns). -/
def getXraw (ds : DS) : Frame :=
  ⟨ds.index, ds.featCols, ds.raw⟩

/-- The raw-table y subset (all rows, label columns). -/
def getYraw (ds : DS) : Frame :=
  ⟨ds.index, ds.labelCols, ds.raw⟩

/-- AutoML.save, as the ordered list of file writes it performs.  The
Python conditions are kept as written: the truthy string literals make
them tests of column membership of the literal names X_test and y_test in
the data table, and inside the label block the y_train frame is written to
the _test.solution path and then overwritten by the y_test frame. -/
def save (ds : DS) (out_name : String) : List (String × WVal) :=
  [(out_name ++ ".data", WVal.frame (getXraw ds)),
   (out_name ++ "_feat.name", WVal.names ds.featCols)]
  ++ (if "y" ∈ allCols ds then [(out_name ++ ".solution", WVal.frame (getYraw ds))] else [])
  ++ (if "X_test" ∈ allCols ds then
        [(out_name ++ "_train.data", WVal.frame ⟨ds.trainIdx, ds.featCols, ds.raw⟩),
         (out_name ++ "_test.data", WVal.frame ⟨ds.testIdx, ds.featCols, ds.raw⟩)]
        ++ (if "y_test" ∈ allCols ds then
              [(out_name ++ "_test.solution", WVal.frame ⟨ds.trainIdx, ds.labelCols, ds.raw⟩),
               (out_name ++ "_test.solution", WVal.frame ⟨ds.testIdx, ds.labelCols, ds.raw⟩),
               (out_name ++ "_label.name", WVal.names ds.labelCols)]
            else [])
      else [])
  ++ [(out_name ++ "_public.info", WVal.info)]

/-! ### Train/test split construction (AutoML.init_data /
AutoML.train_test_split) -/

/-- AutoML.train_test_split: cut a shuffled copy of the row index at
int(test_size * n); the first part is the test selection, the remainder
the train selection.  The shuffled order produced by random.sample is
passed in explicitly.  Returns (train, test). -/
def trainTestSplit (index shuffled : List Nat) (testSize : ℚ) :
    List Nat × List Nat :=
  let split := (testSize * (index.length : ℚ)).floor.toNat
  (shuffled.drop split, shuffled.take split)

/-- The train and test row selections built by init_data when pre-split
files exist: the first nTrain labels of the concatenated table, and the
following nTest labels.  Returns (train, test). -/
def presplitIdx (nTrain nTest : Nat) : List Nat × List Nat :=
  (List.range nTrain, (List.range nTest).map (· + nTrain))

/-! ### Subset addressing (AutoML.get_data / AutoML.set_data) -/

/-- A pandas label: a row label of the index or a column name.  The
subsets dictionary stores lists of row labels under train and test and
lists of column names under X and y. -/
inductive Label where
  | row (r : Nat)
  | col (c : String)
deriving DecidableEq, Repr

/-- str.split of Python on a single separator character: splitting the
empty string gives one empty part, and adjacent separators give empty
parts. -/
def pySplit (sep : Char) : List Char → List (List Char)
  | [] => [[]]
  | c :: rest =>
    if c = sep then [] :: pySplit sep rest
    else
      match pySplit sep rest with
      | [] => [[c]]
      | p :: ps => (c :: p) :: ps

/-- Rejoin split parts with the separator; inverse of pySplit. -/
def joinSep (sep : Char) : List (List Char) → List Char
  | [] => []
  | [p] => p
  | p :: ps => p ++ sep :: joinSep sep ps

/-- Lookup in the subsets dictionary built by init_data: X and y map to
the feature and label column names, train and test to the train and test
row selections; any other key raises KeyError (returns none).  The key is
given as its character list. -/
def subsetsLookup (ds : DS) (k : List Char) : Option (List Label) :=
  if k = "X".data then some (ds.featCols.map Label.col)
  else if k = "y".data then some (ds.labelCols.map Label.col)
  else if k = "train".data then some (ds.trainIdx.map Label.row)
  else if k = "test".data then some (ds.testIdx.map Label.row)
  else none

/-- The subset-resolution logic shared by get_data and set_data: the keys
empty/all/data select everything; a key containing an underscore is split
into a column part and a row part looked up in the subsets dictionary
(KeyError when absent, ValueError when the split has more than two
parts); the remaining simple keys are X, y, train and test; any other
simple key leaves instances and columns unassigned, raising
UnboundLocalError at first use. -/
def resolveSubsets (ds : DS) (s : String) :
    Except String (List Label × List Label) :=
  let parts := pySplit '_' s.data
  if 2 ≤ parts.length then
    match parts with
    | [c, i] =>
      match subsetsLookup ds i, subsetsLookup ds c with
      | some inst, some cls => .ok (inst, cls)
      | _, _ => .error "KeyError: subsets"
    | _ => .error "ValueError: too many values to unpack"
  else
    if s = "" ∨ s = "all" ∨ s = "data" then
      .ok (ds.index.map Label.row, (allCols ds).map Label.col)
    else if s = "X" then .ok (ds.index.map Label.row, ds.featCols.map Label.col)
    else if s = "y" then .ok (ds.index.map Label.row, ds.labelCols.map Label.col)
    else if s = "train" then .ok (ds.trainIdx.map Label.row, (allCols ds).map Label.col)
    else if s = "test" then .ok (ds.testIdx.map Label.row, (allCols ds).map Label.col)
    else .error "UnboundLocalError: instances referenced before assignment"

/-- Whether a label is a row label present in the data index. -/
def isRowIn (ds : DS) : Label → Bool
  | Label.row r => decide (r ∈ ds.index)
  | Label.col _ => false

/-- Whether a label is a column name present in the data columns. -/
def isColIn (ds : DS) : Label → Bool
  | Label.col c => decide (c ∈ allCols ds)
  | Label.row _ => false

/-- pandas loc on the raw data table: every requested row label must be a
row label of the index and every requested column label a column name,
otherwise loc raises KeyError; on success the addressed sub-table is
returned. -/
def locSelect (ds : DS) (inst cls : List Label) : Except String Frame :=
  if inst.all (isRowIn ds) && cls.all (isColIn ds) then
    .ok ⟨inst.filterMap (fun l => match l with | Label.row r => some r | _ => none),
         cls.filterMap (fun l => match l with | Label.col c => some c | _ => none),
         ds.raw⟩
  else .error "KeyError: loc"

/-- AutoML.get_data on the raw table: resolve the subset key, then address
the data table with loc. -/
def getData (ds : DS) (s : String) : Except String Frame := do
  let p ← resolveSubsets ds s
  locSelect ds p.1 p.2

/-- The subset keys the spec recognizes for get_data. -/
def recognizedKeys : List String :=
  ["", "all", "data", "X", "y", "train", "test",
   "X_train", "X_test", "y_train", "y_test"]

/-! ### Derived views used in the theorem statements -/

/-- The non-missing values of one column of the X_train view of the
processed table: the sample over which a train-partition statistic is
computed. -/
def trainColVals (ds : DS) (c : String) : List ℚ :=
  numVals (colCells (getXtrain ds) c)

/-- The processed cell at one row and column of the dataset a stage
returned, or none when the stage signalled an error. -/
def procAt (e : Except String DS) (r : Nat) (c : String) : Option Cell :=
  match e with
  | .ok d => some (d.processed r c)
  | .error _ => none

/-! ### Concrete datasets used to evaluate the code on failing inputs and
to witness the theorems -/

/-- A square-root stand-in that is exact on the samples it is applied to
in the concrete developments below. -/
def stdTwo : List ℚ → ℚ := fun _ => 2

/-- Column of the failing input for the imputation-statistic claim:
train rows 0,1,2 hold 1,2,3; test row 3 is missing and test row 4 holds
100, so the train median is 2 while the combined median is 5/2. -/
def vC1 : Nat → Cell
  | 0 => Cell.num 1
  | 1 => Cell.num 2
  | 2 => Cell.num 3
  | 3 => Cell.nan
  | _ => Cell.num 100

/-- Failing input for the imputation-statistic claim: one numerical
feature, rows 0..4, train 0..2, test 3..4. -/
def dsC1 : DS :=
  { index := [0, 1, 2, 3, 4], featCols := ["v"], labelCols := [],
    featType := ["Numerical"], trainIdx := [0, 1, 2], testIdx := [3, 4],
    infoFeatNum := 1,
    raw := fun r c => if c = "v" then vC1 r else Cell.nan,
    processed := fun r c => if c = "v" then vC1 r else Cell.nan }

/-- Column of the standard-normalization witness: train rows 0,1,2 hold
0,2,4 (mean 2, sample variance 4), test rows 3,4 hold 1,3. -/
def vC2 : Nat → Cell
  | 0 => Cell.num 0
  | 1 => Cell.num 2
  | 2 => Cell.num 4
  | 3 => Cell.num 1
  | _ => Cell.num 3

/-- Witness dataset for the standard-normalization claim. -/
def dsC2 : DS :=
  { index := [0, 1, 2, 3, 4], featCols := ["v"], labelCols := [],
    featType := ["Numerical"], trainIdx := [0, 1, 2], testIdx := [3, 4],
    infoFeatNum := 1,
    raw := fun r c => if c = "v" then vC2 r else Cell.nan,
    processed := fun r c => if c = "v" then vC2 r else Cell.nan }

/-- Dataset with one Binary and one Numerical feature, used to probe the
policy-dispatch behaviour of the stages. -/
def dsC4 : DS :=
  { index := [0, 1], featCols := ["b", "v"], labelCols := [],
    featType := ["Binary", "Numerical"], trainIdx := [0], testIdx := [1],
    infoFeatNum := 2,
    raw := fun r c =>
      if c = "b" then Cell.num (if r = 0 then 0 else 1)
      else if c = "v" then (if r = 0 then Cell.num 7 else Cell.num 8) else Cell.nan,
    processed := fun r c =>
      if c = "b" then Cell.num (if r = 0 then 0 else 1)
      else if c = "v" then (if r = 0 then Cell.num 7 else Cell.num 8) else Cell.nan }

/-- Failing input for the save-layout claim: a dataset with a train/test
split and a label column named class. -/
def dsC8 : DS :=
  { index := [0, 1, 2], featCols := ["v"], labelCols := ["class"],
    featType := ["Numerical"], trainIdx := [0, 1], testIdx := [2],
    infoFeatNum := 1,
    raw := fun r c => if c = "v" then Cell.num r else
      if c = "class" then Cell.num 0 else Cell.nan,
    processed := fun r c => if c = "v" then Cell.num r else
      if c = "class" then Cell.num 0 else Cell.nan }

/-- Witness dataset for the remove-policy row-preservation claim: row 1
has a missing numerical entry, so remove drops it from the working copy. -/
def dsC9 : DS :=
  { index := [0, 1, 2], featCols := ["v"], labelCols := [],
    featType := ["Numerical"], trainIdx := [0, 1], testIdx := [2],
    infoFeatNum := 1,
    raw := fun r c => if c = "v" then (if r = 1 then Cell.nan else Cell.num r) else Cell.nan,
    processed := fun r c => if c = "v" then (if r = 1 then Cell.nan else Cell.num r) else Cell.nan }

/-- The dataset state returned by the imputation stage on the remove
witness (its input unchanged if the stage errored). -/
def dsC9after : DS :=
  match imputationStage dsC9 none none (some "remove") with
  | .ok d => d
  | .error _ => dsC9

/-- Witness datasets for the comparator claims: dsP and dsQ differ in
feature count. -/
def dsP : DS :=
  { index := [0, 1], featCols := ["v"], labelCols := [],
    featType := ["Numerical"], trainIdx := [0], testIdx := [1],
    infoFeatNum := 1,
    raw := fun r c => if c = "v" then Cell.num r else Cell.nan,
    processed := fun r c => if c = "v" then Cell.num r else Cell.nan }

/-- Second comparator witness dataset, with two features. -/
def dsQ : DS :=
  { index := [0, 1], featCols := ["u", "w"], labelCols := [],
    featType := ["Numerical", "Numerical"], trainIdx := [0], testIdx := [1],
    infoFeatNum := 2,
    raw := fun r c => if c = "u" ∨ c = "w" then Cell.num r else Cell.nan,
    processed := fun r c => if c = "u" ∨ c = "w" then Cell.num r else Cell.nan }

/-- The datasets returned by constructing a comparator on dsP and a copy
of dsP (equal feature counts, so construction succeeds). -/
def c10pair : DS × DS :=
  match (comparatorInit dsP dsP stdTwo).2 with
  | .ok p => p
  | .error _ => (dsP, dsP)

/-! ## Helper lemmas -/

theorem numVals_map_cellMapNum (g : ℚ → ℚ) (xs : List Cell) :
    numVals (xs.map (cellMapNum g)) = (numVals xs).map g := by
  induction xs with
  | nil => rfl
  | cons x xs ih =>
    cases x <;> simp [numVals, cellMapNum, cellNum, List.filterMap_cons] <;>
      simpa [numVals] using ih

theorem sum_map_sub_const (l : List ℚ) (m : ℚ) :
    (l.map (fun v => v - m)).sum = l.sum - l.length * m := by
  induction l with
  | nil => simp
  | cons x l ih => simp [ih]; ring

theorem sum_map_div_const (l : List ℚ) (s : ℚ) :
    (l.map (fun v => v / s)).sum = l.sum / s := by
  induction l with
  | nil => simp
  | cons x l ih => simp [ih]; ring

theorem qmean_center_scale (l : List ℚ) (m s : ℚ) (h : l ≠ []) :
    qmean (l.map (fun v => (v - m) / s)) = (qmean l - m) / s := by
  have hn : (l.length : ℚ) ≠ 0 := by
    have hl : l.length ≠ 0 := fun hh => h (List.length_eq_zero.mp hh)
    exact_mod_cast hl
  have : (l.map (fun v => (v - m) / s)) = (l.map (fun v => v - m)).map (fun v => v / s) := by
    simp
  rw [qmean, this, sum_map_div_const, List.length_map, List.length_map, sum_map_sub_const,
    qmean]
  field_simp
  ring

theorem qmean_standardized (l : List ℚ) (s : ℚ) :
    qmean (l.map (fun v => (v - qmean l) / s)) = 0 := by
  rcases eq_or_ne l [] with h | h
  · simp [h, qmean]
  · rw [qmean_center_scale l _ s h]
    simp

theorem sampleVar_standardized (l : List ℚ) (s : ℚ) (hs : s ≠ 0)
    (hvar : s * s = sampleVar l) (hlen : 2 ≤ l.length) :
    sampleVar (l.map (fun v => (v - qmean l) / s)) = 1 := by
  have hne : l ≠ [] := by
    intro h; rw [h] at hlen; simp at hlen
  have hmean := qmean_standardized l s
  have hsq : ∀ v : ℚ, ((v - qmean l) / s - 0) ^ 2 = (v - qmean l) ^ 2 / (s * s) := by
    intro v; rw [sub_zero, div_pow]; ring_nf
  have hlist : (l.map (fun v => (v - qmean l) / s)).map
      (fun v => (v - qmean (l.map (fun w => (w - qmean l) / s))) ^ 2) =
      (l.map (fun v => (v - qmean l) ^ 2)).map (fun v => v / (s * s)) := by
    rw [hmean]
    simp only [List.map_map]
    exact List.map_congr_left (fun v _ => hsq v)
  have hnz : s * s ≠ 0 := mul_ne_zero hs hs
  have hd : ((l.length : ℚ) - 1) ≠ 0 := by
    have : (2 : ℚ) ≤ (l.length : ℚ) := by exact_mod_cast hlen
    intro h
    have : (l.length : ℚ) = 1 := by linarith
    linarith
  rw [sampleVar, hlist, sum_map_div_const]
  simp only [List.length_map]
  rw [div_right_comm]
  have hsv : (l.map (fun v => (v - qmean l) ^ 2)).sum / ((l.length : ℚ) - 1) = sampleVar l := rfl
  rw [hsv, ← hvar, div_self hnz]

theorem map_fst_filter_zip_sublist {α β : Type} (p : α × β → Bool) :
    ∀ (l : List α) (l' : List β), (((l.zip l').filter p).map Prod.fst).Sublist l := by
  intro l
  induction l with
  | nil => intro l'; simp
  | cons a l ih =>
    intro l'
    cases l' with
    | nil => simp
    | cons b l' =>
      simp only [List.zip_cons_cons, List.filter_cons]
      by_cases h : p (a, b)
      · simp only [h, if_pos, List.map_cons]
        exact List.Sublist.cons₂ a (ih l')
      · simp only [h]
        exact List.Sublist.cons a (ih l')

theorem mem_typedCols (ds : DS) (t c : String) (h : c ∈ typedCols ds t) :
    c ∈ ds.featCols :=
  (map_fst_filter_zip_sublist _ ds.featCols ds.featType).mem h

theorem typedCols_nodup (ds : DS) (t : String) (h : ds.featCols.Nodup) :
    (typedCols ds t).Nodup :=
  (map_fst_filter_zip_sublist _ ds.featCols ds.featType).nodup h

theorem normStep_shape (norm : String) (f : List ℚ → ℚ) (st : Frame × Frame) (c : String) :
    (normStep norm f st c).1.index = st.1.index ∧ (normStep norm f st c).1.cols = st.1.cols ∧
    (normStep norm f st c).2.index = st.2.index ∧ (normStep norm f st c).2.cols = st.2.cols := by
  unfold normStep
  split
  · exact ⟨rfl, rfl, rfl, rfl⟩
  · split
    · exact ⟨rfl, rfl, rfl, rfl⟩
    · exact ⟨rfl, rfl, rfl, rfl⟩

theorem normStep_other_col (norm : String) (f : List ℚ → ℚ) (st : Frame × Frame)
    (c c' : String) (h : c' ≠ c) (r : Nat) :
    (normStep norm f st c).1.entry r c' = st.1.entry r c' ∧
    (normStep norm f st c).2.entry r c' = st.2.entry r c' := by
  unfold normStep standard minMax mapNumCol
  split
  · exact ⟨by simp [h], by simp [h]⟩
  · split
    · exact ⟨by simp [h], by simp [h]⟩
    · exact ⟨rfl, rfl⟩

theorem foldNorm_shape (norm : String) (f : List ℚ → ℚ) (cols : List String) :
    ∀ st : Frame × Frame,
    (cols.foldl (normStep norm f) st).1.index = st.1.index ∧
    (cols.foldl (normStep norm f) st).1.cols = st.1.cols ∧
    (cols.foldl (normStep norm f) st).2.index = st.2.index ∧
    (cols.foldl (normStep norm f) st).2.cols = st.2.cols := by
  induction cols with
  | nil => intro st; exact ⟨rfl, rfl, rfl, rfl⟩
  | cons a cols ih =>
    intro st
    have hstep := normStep_shape norm f st a
    have hrest := ih (normStep norm f st a)
    simp only [List.foldl_cons]
    exact ⟨hrest.1.trans hstep.1, hrest.2.1.trans hstep.2.1,
      hrest.2.2.1.trans hstep.2.2.1, hrest.2.2.2.trans hstep.2.2.2⟩

theorem foldNorm_notmem (norm : String) (f : List ℚ → ℚ) (c : String) (cols : List String)
    (hc : c ∉ cols) : ∀ (st : Frame × Frame) (r : Nat),
    (cols.foldl (normStep norm f) st).1.entry r c = st.1.entry r c ∧
    (cols.foldl (normStep norm f) st).2.entry r c = st.2.entry r c := by
  induction cols with
  | nil => intro st r; exact ⟨rfl, rfl⟩
  | cons a cols ih =>
    intro st r
    have hne : c ≠ a := fun h => hc (h ▸ List.mem_cons_self a cols)
    have htail : c ∉ cols := fun h => hc (List.mem_cons_of_mem a h)
    have hstep := normStep_other_col norm f st a c hne r
    have hrest := (ih htail) (normStep norm f st a) r
    simp only [List.foldl_cons]
    exact ⟨hrest.1.trans hstep.1, hrest.2.trans hstep.2⟩

theorem foldNorm_standard_mem (f : List ℚ → ℚ) (c : String) (cols : List String) :
    cols.Nodup → c ∈ cols → ∀ (st : Frame × Frame) (r : Nat),
    (cols.foldl (normStep "standard" f) st).1.entry r c =
      cellMapNum (fun v => (v - qmean (numVals (colCells st.1 c))) /
        f (numVals (colCells st.1 c))) (st.1.entry r c) ∧
    (cols.foldl (normStep "standard" f) st).2.entry r c =
      cellMapNum (fun v => (v - qmean (numVals (colCells st.1 c))) /
        f (numVals (colCells st.1 c))) (st.2.entry r c) := by
  induction cols with
  | nil => intro _ hmem; exact absurd hmem (List.not_mem_nil c)
  | cons a cols ih =>
    intro hnd hmem st r
    simp only [List.foldl_cons]
    rcases List.mem_cons.mp hmem with hhead | htail
    · subst hhead
      have hnotin : c ∉ cols := (List.nodup_cons.mp hnd).1
      have hskip := foldNorm_notmem "standard" f c cols hnotin (normStep "standard" f st c) r
      have hstep1 : (normStep "standard" f st c).1.entry r c =
          cellMapNum (fun v => (v - qmean (numVals (colCells st.1 c))) /
            f (numVals (colCells st.1 c))) (st.1.entry r c) := by
        simp [normStep, standard, mapNumCol]
      have hstep2 : (normStep "standard" f st c).2.entry r c =
          cellMapNum (fun v => (v - qmean (numVals (colCells st.1 c))) /
            f (numVals (colCells st.1 c))) (st.2.entry r c) := by
        simp [normStep, standard, mapNumCol]
      exact ⟨hskip.1.trans hstep1, hskip.2.trans hstep2⟩
    · have hna : a ∉ cols := (List.nodup_cons.mp hnd).1
      have hne : c ≠ a := fun h => hna (h ▸ htail)
      have hstep := normStep_other_col "standard" f st a c hne
      have hcol : colCells (normStep "standard" f st a).1 c = colCells st.1 c := by
        unfold colCells
        rw [(normStep_shape "standard" f st a).1]
        exact List.map_congr_left (fun r' _ => (hstep r').1)
      have hrest := ih (List.nodup_cons.mp hnd).2 htail (normStep "standard" f st a) r
      rw [hrest.1, hrest.2, hcol, (hstep r).1, (hstep r).2]
      exact ⟨rfl, rfl⟩

theorem setDataX_fields (ds : DS) (v : Frame) :
    (setDataX ds v).index = ds.index ∧ (setDataX ds v).featCols = ds.featCols ∧
    (setDataX ds v).labelCols = ds.labelCols ∧ (setDataX ds v).featType = ds.featType ∧
    (setDataX ds v).trainIdx = ds.trainIdx ∧ (setDataX ds v).testIdx = ds.testIdx ∧
    (setDataX ds v).infoFeatNum = ds.infoFeatNum ∧ (setDataX ds v).raw = ds.raw :=
  ⟨rfl, rfl, rfl, rfl, rfl, rfl, rfl, rfl⟩

theorem imputationStage_ok_fields (ds : DS) (b c n : Option String) (d : DS)
    (h : imputationStage ds b c n = .ok d) :
    d.index = ds.index ∧ d.featCols = ds.featCols ∧ d.labelCols = ds.labelCols ∧
    d.featType = ds.featType ∧ d.trainIdx = ds.trainIdx ∧ d.testIdx = ds.testIdx ∧
    d.infoFeatNum = ds.infoFeatNum ∧ d.raw = ds.raw := by
  unfold imputationStage at h
  simp only [Bind.bind, Except.bind] at h
  cases h1 : imputeDispatch (getX ds) (typedCols ds "Binary") b with
  | error e => rw [h1] at h; simp at h
  | ok d1 =>
    rw [h1] at h
    simp only [] at h
    cases h2 : imputeDispatch d1 (typedCols ds "Categorical") c with
    | error e => rw [h2] at h; simp at h
    | ok d2 =>
      rw [h2] at h
      simp only [] at h
      cases h3 : imputeDispatch d2 (typedCols ds "Numerical") n with
      | error e => rw [h3] at h; simp at h
      | ok d3 =>
        rw [h3] at h
        simp only [Except.ok.injEq] at h
        rw [← h]
        exact setDataX_fields ds d3

theorem encodingStage_ok_fields (ds : DS) (code : String) (d : DS)
    (h : encodingStage ds code = .ok d) :
    d.index = ds.index ∧ d.featCols = ds.featCols ∧ d.labelCols = ds.labelCols ∧
    d.featType = ds.featType ∧ d.trainIdx = ds.trainIdx ∧ d.testIdx = ds.testIdx ∧
    d.infoFeatNum = ds.infoFeatNum ∧ d.raw = ds.raw := by
  unfold encodingStage at h
  simp only [] at h
  cases hf : encFor code with
  | some f =>
    rw [hf] at h
    simp only [Except.ok.injEq] at h
    rw [← h]
    exact ⟨rfl, rfl, rfl, rfl, rfl, rfl, rfl, rfl⟩
  | none =>
    rw [hf] at h
    by_cases hc : typedColsBC ds = []
    · rw [if_pos hc] at h
      simp only [Except.ok.injEq] at h
      rw [← h]
      exact ⟨rfl, rfl, rfl, rfl, rfl, rfl, rfl, rfl⟩
    · rw [if_neg hc] at h
      simp at h

theorem normalizationRun_fields (ds : DS) (norm : String) (f : List ℚ → ℚ) :
    (normalizationRun ds norm f).index = ds.index ∧
    (normalizationRun ds norm f).featCols = ds.featCols ∧
    (normalizationRun ds norm f).labelCols = ds.labelCols ∧
    (normalizationRun ds norm f).featType = ds.featType ∧
    (normalizationRun ds norm f).trainIdx = ds.trainIdx ∧
    (normalizationRun ds norm f).testIdx = ds.testIdx ∧
    (normalizationRun ds norm f).infoFeatNum = ds.infoFeatNum ∧
    (normalizationRun ds norm f).raw = ds.raw :=
  ⟨rfl, rfl, rfl, rfl, rfl, rfl, rfl, rfl⟩

theorem processData_ok_fields (ds : DS) (norm code : String) (b c n : Option String)
    (f : List ℚ → ℚ) (d : DS) (h : processData ds norm code b c n f = .ok d) :
    d.index = ds.index ∧ d.featCols = ds.featCols ∧ d.labelCols = ds.labelCols ∧
    d.featType = ds.featType ∧ d.trainIdx = ds.trainIdx ∧ d.testIdx = ds.testIdx ∧
    d.infoFeatNum = ds.infoFeatNum ∧ d.raw = ds.raw := by
  unfold processData at h
  simp only [Bind.bind, Except.bind] at h
  cases h1 : encodingStage { ds with processed := ds.raw } code with
  | error e => rw [h1] at h; simp at h
  | ok d1 =>
    rw [h1] at h
    simp only [] at h
    cases h2 : imputationStage d1 b c n with
    | error e => rw [h2] at h; simp at h
    | ok d2 =>
      rw [h2] at h
      simp only [normalizationStage, Except.ok.injEq] at h
      have e1 := encodingStage_ok_fields _ _ _ h1
      have e2 := imputationStage_ok_fields _ _ _ _ _ h2
      have e3 := normalizationRun_fields d2 norm f
      rw [← h]
      refine ⟨?_, ?_, ?_, ?_, ?_, ?_, ?_, ?_⟩ <;>
        simp only [e3.1, e3.2.1, e3.2.2.1, e3.2.2.2.1, e3.2.2.2.2.1, e3.2.2.2.2.2.1,
          e3.2.2.2.2.2.2.1, e3.2.2.2.2.2.2.2, e2.1, e2.2.1, e2.2.2.1, e2.2.2.2.1,
          e2.2.2.2.2.1, e2.2.2.2.2.2.1, e2.2.2.2.2.2.2.1, e2.2.2.2.2.2.2.2,
          e1.1, e1.2.1, e1.2.2.1, e1.2.2.2.1, e1.2.2.2.2.1, e1.2.2.2.2.2.1,
          e1.2.2.2.2.2.2.1, e1.2.2.2.2.2.2.2]

/-! ## Claim theorems -/

/-- C1: the claim says the mean/median/most-frequent fill statistic is
computed over the non-missing train values only; the code computes it in
AutoML.imputation over the full X subset, train and test rows combined.
On dsC1 the missing test entry at row 3 is filled with the combined-table
median 5/2 even though the train-partition median of the non-missing
values is 2. -/
theorem imputation_statistic_uses_combined_table :
    procAt (imputationStage dsC1 (some "most") (some "most") (some "median")) 3 "v" =
      some (Cell.num (5 / 2)) ∧
    qmedian (trainColVals dsC1 "v") = 2 ∧ (5 / 2 : ℚ) ≠ 2 := by
  refine ⟨?_, ?_, by norm_num⟩
  · simp +decide [imputationStage, imputeDispatch, imputeMedian, imputeMost, dsC1, vC1, getX,
      setDataX, typedCols, fillna, colCells, numVals, cellNum, qmedian, qsort, insertSorted,
      mostCommon, firstOccDedup, bind, Except.bind, procAt]
    norm_num
  · norm_num [trainColVals, dsC1, vC1, getXtrain, colCells, numVals, cellNum, qmedian,
      qsort, insertSorted, List.filterMap_cons, List.filterMap_nil]

/-- C3: the train and test row selections are disjoint and together they
are exactly the full row index; in the random-split path the test
selection is the first floor(test_size * n) entries of the shuffled
permutation of the index and the train selection is the remainder, and in
the pre-split path they are the leading and trailing blocks of the
concatenated range. -/
theorem split_partitions_index :
    (∀ (index shuffled : List Nat) (ts : ℚ), shuffled.Perm index → index.Nodup →
      (∀ x, ¬(x ∈ (trainTestSplit index shuffled ts).1 ∧
        x ∈ (trainTestSplit index shuffled ts).2)) ∧
      (∀ x, (x ∈ (trainTestSplit index shuffled ts).1 ∨
        x ∈ (trainTestSplit index shuffled ts).2) ↔ x ∈ index) ∧
      (trainTestSplit index shuffled ts).2 =
        shuffled.take ((ts * (index.length : ℚ)).floor.toNat) ∧
      (trainTestSplit index shuffled ts).1 =
        shuffled.drop ((ts * (index.length : ℚ)).floor.toNat)) ∧
    (∀ nTrain nTest : Nat,
      (∀ x, ¬(x ∈ (presplitIdx nTrain nTest).1 ∧ x ∈ (presplitIdx nTrain nTest).2)) ∧
      (∀ x, (x ∈ (presplitIdx nTrain nTest).1 ∨ x ∈ (presplitIdx nTrain nTest).2) ↔
        x ∈ List.range (nTrain + nTest))) := by
  constructor
  · intro index shuffled ts hperm hnd
    have hndS : shuffled.Nodup := hperm.nodup_iff.mpr hnd
    refine ⟨?_, ?_, rfl, rfl⟩
    · intro x ⟨hdrop, htake⟩
      exact (List.disjoint_take_drop (m := (ts * (index.length : ℚ)).floor.toNat)
        (n := (ts * (index.length : ℚ)).floor.toNat) hndS le_rfl) htake hdrop
    · intro x
      rw [← hperm.mem_iff]
      conv_rhs => rw [← List.take_append_drop ((ts * (index.length : ℚ)).floor.toNat) shuffled]
      rw [List.mem_append]
      exact Or.comm
  · intro nTrain nTest
    constructor
    · intro x ⟨h1, h2⟩
      simp only [presplitIdx, List.mem_range, List.mem_map] at h1 h2
      omega
    · intro x
      simp only [presplitIdx, List.mem_range, List.mem_map]
      constructor
      · rintro (h | ⟨y, hy, rfl⟩) <;> omega
      · intro h
        by_cases hx : x < nTrain
        · exact Or.inl hx
        · exact Or.inr ⟨x - nTrain, by omega, by omega⟩

/-- Witness for C3 at a concrete five-row index, a concrete shuffle and
test_size 2/5, and at a concrete pre-split pair. -/
theorem split_partitions_index_witness :
    ¬(3 ∈ (trainTestSplit [0, 1, 2, 3, 4] [2, 0, 4, 1, 3] (2 / 5)).1 ∧
      3 ∈ (trainTestSplit [0, 1, 2, 3, 4] [2, 0, 4, 1, 3] (2 / 5)).2) ∧
    ¬(0 ∈ (presplitIdx 3 2).1 ∧ 0 ∈ (presplitIdx 3 2).2) :=
  ⟨(split_partitions_index.1 [0, 1, 2, 3, 4] [2, 0, 4, 1, 3] (2 / 5)
      (by decide) (by decide)).1 3,
   ((split_partitions_index.2 3 2).1 0)⟩

/-- C5: get_types assigns each column exactly one of Binary, Categorical
and Numerical, in order: two unique values give Binary; otherwise a
string-valued column, or more than two unique values whose column sum
matches n(n-1)/2 or n(n+1)/2 for n unique values, gives Categorical; all
else gives Numerical, and a column whose sum is not a number fails the
triangular test the same way a sum of negative infinity would. -/
theorem get_type_classification (xs : List Cell) :
    (get_type xs = "Binary" ∨ get_type xs = "Categorical" ∨ get_type xs = "Numerical") ∧
    (xs.dedup.length = 2 → get_type xs = "Binary") ∧
    (xs.dedup.length ≠ 2 →
      ((2 < xs.dedup.length ∧ triBool (colSum xs) xs.dedup.length = true) ∨
        xs.any isStrC = true) → get_type xs = "Categorical") ∧
    (xs.dedup.length ≠ 2 →
      ¬((2 < xs.dedup.length ∧ triBool (colSum xs) xs.dedup.length = true) ∨
        xs.any isStrC = true) → get_type xs = "Numerical") ∧
    (∀ n, (∀ q, colSum xs ≠ PySum.q q) → triBool (colSum xs) n = false) ∧
    (∀ f : Frame, get_types f = f.cols.map (fun c => get_type (colCells f c))) := by
  refine ⟨?_, ?_, ?_, ?_, ?_, fun f => rfl⟩
  · by_cases h2 : xs.dedup.length = 2
    · exact Or.inl (by simp only [get_type]; rw [if_pos h2])
    · by_cases hc : (2 < xs.dedup.length ∧ triBool (colSum xs) xs.dedup.length = true) ∨
        xs.any isStrC = true
      · exact Or.inr (Or.inl (by simp only [get_type]; rw [if_neg h2, if_pos hc]))
      · exact Or.inr (Or.inr (by simp only [get_type]; rw [if_neg h2, if_neg hc]))
  · intro h2; simp only [get_type]; rw [if_pos h2]
  · intro h2 hc; simp only [get_type]; rw [if_neg h2, if_pos hc]
  · intro h2 hc; simp only [get_type]; rw [if_neg h2, if_neg hc]
  · intro n hq
    cases hs : colSum xs with
    | q v => exact absurd hs (hq v)
    | s t => rfl
    | err => rfl

/-- Witness for C5 on three concrete columns: an all-string three-valued
column is Categorical, a one-valued numeric column is Numerical, and a
two-valued mixed column is Binary. -/
theorem get_type_classification_witness :
    get_type [Cell.str "a", Cell.str "b", Cell.str "c"] = "Categorical" ∧
    get_type [Cell.num 5] = "Numerical" ∧
    get_type [Cell.str "a", Cell.num 1] = "Binary" :=
  ⟨(get_type_classification [Cell.str "a", Cell.str "b", Cell.str "c"]).2.2.1
      (by decide) (Or.inr (by decide)),
   (get_type_classification [Cell.num 5]).2.2.2.1 (by decide) (by decide),
   (get_type_classification [Cell.str "a", Cell.num 1]).2.1 (by decide)⟩

/-- C7: when the two datasets disagree on the feat_num info entry, the
comparator constructor fails at the assertion, and neither the descriptor
distances nor the comparison matrix are computed. -/
theorem comparator_featnum_guard (ds1 ds2 : DS) (f : List ℚ → ℚ)
    (h : ds1.infoFeatNum ≠ ds2.infoFeatNum) :
    (comparatorInit ds1 ds2 f).2.isOk = false ∧
    CEvent.descriptors ∉ (comparatorInit ds1 ds2 f).1 ∧
    CEvent.comparisonMatrix ∉ (comparatorInit ds1 ds2 f).1 := by
  unfold comparatorInit
  cases h1 : processDataDefaults ds1 f with
  | error e => simp only []; exact ⟨rfl, by decide, by decide⟩
  | ok d1 =>
    cases h2 : processDataDefaults ds2 f with
    | error e => simp only []; exact ⟨rfl, by decide, by decide⟩
    | ok d2 =>
      have e1 := (processData_ok_fields ds1 "standard" "label" (some "most") (some "most")
        (some "median") f d1 h1).2.2.2.2.2.2.1
      have e2 := (processData_ok_fields ds2 "standard" "label" (some "most") (some "most")
        (some "median") f d2 h2).2.2.2.2.2.2.1
      simp only []
      rw [if_neg (by rw [e1, e2]; exact h)]
      exact ⟨rfl, by decide, by decide⟩

/-- Witness for C7 on the one-feature and two-feature datasets dsP and
dsQ. -/
theorem comparator_featnum_guard_witness :
    (comparatorInit dsP dsQ stdTwo).2.isOk = false ∧
    CEvent.descriptors ∉ (comparatorInit dsP dsQ stdTwo).1 :=
  ⟨(comparator_featnum_guard dsP dsQ stdTwo (by decide)).1,
   (comparator_featnum_guard dsP dsQ stdTwo (by decide)).2.1⟩

theorem string_append_left_cancel (n a b : String) (h : n ++ a = n ++ b) : a = b := by
  have h2 : (n ++ a).data = (n ++ b).data := congrArg String.data h
  rw [String.data_append, String.data_append] at h2
  have h3 := List.append_cancel_left h2
  cases a
  cases b
  exact congrArg String.mk h3

theorem save_files_form (ds : DS) (name : String) :
    ∀ p ∈ (save ds name).map Prod.fst,
    p ∈ [name ++ ".data", name ++ "_feat.name", name ++ ".solution", name ++ "_train.data",
      name ++ "_test.data", name ++ "_test.solution", name ++ "_label.name",
      name ++ "_public.info"] := by
  intro p hp
  by_cases h1 : "y" ∈ allCols ds <;> by_cases h2 : "X_test" ∈ allCols ds <;>
    by_cases h3 : "y_test" ∈ allCols ds <;>
    simp only [save, h1, h2, h3, if_true, if_false, List.map_append, List.mem_append,
      List.map_cons, List.map_nil, List.mem_cons, List.not_mem_nil, or_false,
      List.append_nil, List.nil_append, ite_true, ite_false] at hp <;>
    simp only [List.mem_cons, List.not_mem_nil, or_false] <;> tauto

/-- C8: the claim says save mirrors the input layout, including
_train.data, _test.data, _train.solution, _test.solution and _label.name;
on dsC8, which has a train/test split and a label column, save writes only
the .data, _feat.name and _public.info files, because the split block is
guarded by column membership of the literal name X_test and the label
block by the literal names y and y_test; moreover no dataset and basename
ever produce a _train.solution write, since the label block writes the
train labels to the _test.solution path. -/
theorem save_layout_diverges :
    (save dsC8 "out").map Prod.fst = ["out.data", "out_feat.name", "out_public.info"] ∧
    (∀ (ds : DS) (name : String),
      (name ++ "_train.solution") ∉ (save ds name).map Prod.fst) := by
  constructor
  · simp +decide [save, dsC8, allCols]
  · intro ds name hmem
    have h8 := save_files_form ds name _ hmem
    simp only [List.mem_cons, List.not_mem_nil, or_false] at h8
    rcases h8 with h | h | h | h | h | h | h | h <;>
      exact absurd (string_append_left_cancel name _ _ h) (by decide)

/-- C9: no preprocessing stage changes the row index or the train/test
row selections of the dataset state, because set_data writes results back
by label-aligned loc assignment; in particular, when the remove policy
drops a row with a missing numerical value from the working copy, that row
stays in the processed table and its written-back feature entries become
missing. -/
theorem stages_preserve_row_index (ds : DS) :
    (∀ code d, encodingStage ds code = .ok d →
      d.index = ds.index ∧ d.trainIdx = ds.trainIdx ∧ d.testIdx = ds.testIdx) ∧
    (∀ b c n d, imputationStage ds b c n = .ok d →
      d.index = ds.index ∧ d.trainIdx = ds.trainIdx ∧ d.testIdx = ds.testIdx) ∧
    (∀ norm f, (normalizationRun ds norm f).index = ds.index ∧
      (normalizationRun ds norm f).trainIdx = ds.trainIdx ∧
      (normalizationRun ds norm f).testIdx = ds.testIdx) ∧
    (∀ d, imputationStage ds none none (some "remove") = .ok d →
      ∀ r ∈ ds.index, ∀ c ∈ ds.featCols,
        ((typedCols ds "Numerical").all
          (fun c2 => ds.processed r c2 ≠ Cell.nan)) = false →
        d.processed r c = Cell.nan) := by
  refine ⟨?_, ?_, ?_, ?_⟩
  · intro code d h
    have e := encodingStage_ok_fields ds code d h
    exact ⟨e.1, e.2.2.2.2.1, e.2.2.2.2.2.1⟩
  · intro b c n d h
    have e := imputationStage_ok_fields ds b c n d h
    exact ⟨e.1, e.2.2.2.2.1, e.2.2.2.2.2.1⟩
  · intro norm f
    have e := normalizationRun_fields ds norm f
    exact ⟨e.1, e.2.2.2.2.1, e.2.2.2.2.2.1⟩
  · intro d h r hr c hc hdrop
    have hok : imputationStage ds none none (some "remove") =
        .ok (setDataX ds (imputeRemove (getX ds) (typedCols ds "Numerical"))) := by
      simp +decide [imputationStage, imputeDispatch, Bind.bind, Except.bind]
    rw [hok] at h
    injection h with h
    rw [← h]
    show (if r ∈ ds.index ∧ c ∈ ds.featCols then
      (if r ∈ (imputeRemove (getX ds) (typedCols ds "Numerical")).index ∧
          c ∈ (imputeRemove (getX ds) (typedCols ds "Numerical")).cols then
        (imputeRemove (getX ds) (typedCols ds "Numerical")).entry r c else Cell.nan)
      else ds.processed r c) = Cell.nan
    rw [if_pos ⟨hr, hc⟩, if_neg]
    intro ⟨hmem, _⟩
    rw [show (imputeRemove (getX ds) (typedCols ds "Numerical")).index =
      ds.index.filter (fun r2 => (typedCols ds "Numerical").all
        (fun c2 => ds.processed r2 c2 ≠ Cell.nan)) from rfl] at hmem
    rw [List.mem_filter] at hmem
    rw [hmem.2] at hdrop
    exact Bool.true_eq_false.mp hdrop

/-- Witness for C9: on dsC9 the remove policy keeps the row index intact
and turns the dropped row 1 into a missing entry of the written-back
column. -/
theorem stages_preserve_row_index_witness :
    dsC9after.index = dsC9.index ∧ dsC9after.processed 1 "v" = Cell.nan :=
  ⟨((stages_preserve_row_index dsC9).2.1 none none (some "remove") dsC9after rfl).1,
   (stages_preserve_row_index dsC9).2.2.2 dsC9after rfl 1 (by decide) "v" (by decide)
     (by decide)⟩

/-- C10: constructing a comparator reprocesses both input datasets with
the default policies: the construction result does not depend on whatever
processed tables the datasets carried before (process_data resets each to
a fresh copy of its raw table), and on success the returned states are
exactly the outputs of the default pipeline. -/
theorem comparator_reprocesses_datasets (ds1 ds2 : DS)
    (p1 p2 : Nat → String → Cell) (f : List ℚ → ℚ) :
    comparatorInit { ds1 with processed := p1 } { ds2 with processed := p2 } f =
      comparatorInit ds1 ds2 f ∧
    (∀ d1 d2, (comparatorInit ds1 ds2 f).2 = .ok (d1, d2) →
      processDataDefaults ds1 f = .ok d1 ∧ processDataDefaults ds2 f = .ok d2) := by
  constructor
  · have hp : ∀ (ds : DS) (p : Nat → String → Cell),
        processDataDefaults { ds with processed := p } f = processDataDefaults ds f :=
      fun ds p => rfl
    unfold comparatorInit
    rw [hp ds1 p1, hp ds2 p2]
  · intro d1 d2 h
    unfold comparatorInit at h
    cases h1 : processDataDefaults ds1 f with
    | error e => rw [h1] at h; simp at h
    | ok e1 =>
      rw [h1] at h
      simp only [] at h
      cases h2 : processDataDefaults ds2 f with
      | error e => rw [h2] at h; simp at h
      | ok e2 =>
        rw [h2] at h
        simp only [] at h
        by_cases hf : e1.infoFeatNum = e2.infoFeatNum
        · rw [if_pos hf] at h
          simp only [Except.ok.injEq, Prod.mk.injEq] at h
          obtain ⟨ha, hb⟩ := h
          subst ha
          subst hb
          exact ⟨rfl, rfl⟩
        · rw [if_neg hf] at h
          simp at h

/-- Witness for C10: the comparator construction on dsP with replaced
processed tables equals the construction on dsP itself, and the returned
first state is the default-pipeline output of dsP. -/
theorem comparator_reprocesses_datasets_witness :
    comparatorInit { dsP with processed := dsQ.raw } { dsP with processed := dsQ.raw } stdTwo =
      comparatorInit dsP dsP stdTwo ∧
    processDataDefaults dsP stdTwo = .ok c10pair.1 :=
  ⟨(comparator_reprocesses_datasets dsP dsP dsQ.raw dsQ.raw stdTwo).1,
   ((comparator_reprocesses_datasets dsP dsP dsQ.raw dsQ.raw stdTwo).2
      c10pair.1 c10pair.2 rfl).1⟩

/-- C4 counterexample: the claim says every stage raises a configuration
error on an unrecognized policy name and treats none as a no-op; the
normalization method returns without error and leaves the data unchanged
under the unrecognized policy name bogus, and the encoding method raises
under the policy name none when a Binary or Categorical column exists. -/
theorem unknown_policy_counterexample :
    (normalizationStage dsC4 "bogus" stdTwo).isOk = true ∧
    procAt (normalizationStage dsC4 "bogus" stdTwo) 0 "v" = some (dsC4.processed 0 "v") ∧
    (encodingStage dsC4 "none").isOk = false := by
  refine ⟨rfl, ?_, by decide⟩
  decide

/-- C4 amended: the imputation dispatch raises a configuration error for
every unrecognized policy name and treats None and the strings None/none
as explicit no-ops; the normalization method silently leaves the
processed data unchanged for every policy name outside standard and
min-max, none included, and never raises; the encoding method fails for
every policy name outside one-hot, likelihood and label, none included,
exactly when a Binary or Categorical column exists, and silently does
nothing otherwise. -/
theorem policy_dispatch_behaviour :
    (∀ (d : Frame) (cols : List String) (how : Option String),
      how ∉ ([some "remove", some "median", some "mean", some "most",
        none, some "None", some "none"] : List (Option String)) →
      (imputeDispatch d cols how).isOk = false) ∧
    (∀ (d : Frame) (cols : List String),
      imputeDispatch d cols none = .ok d ∧ imputeDispatch d cols (some "None") = .ok d ∧
      imputeDispatch d cols (some "none") = .ok d) ∧
    (∀ (ds : DS) (norm : String) (f : List ℚ → ℚ), norm ≠ "standard" → norm ≠ "min-max" →
      normalizationStage ds norm f = .ok (normalizationRun ds norm f) ∧
      ∀ r c, (normalizationRun ds norm f).processed r c = ds.processed r c) ∧
    (∀ (ds : DS) (code : String), code ∉ (["one-hot", "likelihood", "label"] : List String) →
      (typedColsBC ds ≠ [] → (encodingStage ds code).isOk = false) ∧
      (typedColsBC ds = [] → (encodingStage ds code).isOk = true)) := by
  refine ⟨?_, ?_, ?_, ?_⟩
  · intro d cols how hmem
    simp only [List.mem_cons, List.not_mem_nil, or_false] at hmem
    push_neg at hmem
    obtain ⟨h1, h2, h3, h4, h5, h6, h7⟩ := hmem
    simp [imputeDispatch, h1, h2, h3, h4, h5, h6, h7, Except.isOk, Except.toBool]
  · intro d cols
    exact ⟨rfl, rfl, rfl⟩
  · intro ds norm f hn1 hn2
    refine ⟨rfl, ?_⟩
    have hfold : ∀ (cols : List String) (st : Frame × Frame),
        cols.foldl (normStep norm f) st = st := by
      intro cols
      induction cols with
      | nil => intro st; rfl
      | cons a cols ih =>
        intro st
        simp only [List.foldl_cons]
        rw [show normStep norm f st a = st by unfold normStep; rw [if_neg hn1, if_neg hn2]]
        exact ih st
    intro r c
    unfold normalizationRun
    rw [hfold]
    simp only [setDataXtest, setDataXtrain, getXtest, getXtrain]
    by_cases ht : r ∈ ds.testIdx ∧ c ∈ ds.featCols
    · rw [if_pos ht, if_pos ht]
    · rw [if_neg ht]
      by_cases hr : r ∈ ds.trainIdx ∧ c ∈ ds.featCols
      · rw [if_pos hr, if_pos hr]
      · rw [if_neg hr]
  · intro ds code hmem
    simp only [List.mem_cons, List.not_mem_nil, or_false] at hmem
    push_neg at hmem
    obtain ⟨h1, h2, h3⟩ := hmem
    have hf : encFor code = none := by simp [encFor, h1, h2, h3]
    constructor
    · intro hc
      unfold encodingStage
      rw [hf]
      simp only []
      rw [if_neg hc]
      rfl
    · intro hc
      unfold encodingStage
      rw [hf]
      simp only []
      rw [if_pos hc]
      rfl

/-- Witness for C4 at concrete frames, policies and datasets. -/
theorem policy_dispatch_behaviour_witness :
    (imputeDispatch (getX dsC4) [] (some "bogus")).isOk = false ∧
    imputeDispatch (getX dsC4) [] none = .ok (getX dsC4) ∧
    (normalizationRun dsC4 "bogus" stdTwo).processed 0 "v" = dsC4.processed 0 "v" ∧
    (encodingStage dsC4 "bogus").isOk = false :=
  ⟨policy_dispatch_behaviour.1 (getX dsC4) [] (some "bogus") (by decide),
   (policy_dispatch_behaviour.2.1 (getX dsC4) []).1,
   (policy_dispatch_behaviour.2.2.1 dsC4 "bogus" stdTwo (by decide) (by decide)).2 0 "v",
   (policy_dispatch_behaviour.2.2.2 dsC4 "bogus" (by decide)).1 (by decide)⟩

/-- C2: under standard normalization, the pair (mean, std) of each
Numerical column is fit on the X_train subset of the processed table and
reused unchanged on the X_test subset: every numeric test entry v becomes
(v - train_mean) / train_std and every numeric train entry is transformed
with the same pair, so the transformed train column has mean exactly 0,
and sample variance exactly 1 whenever the std parameter squares to the
train sample variance and is nonzero. -/
theorem standard_normalization_train_params (ds : DS) (stdFn : List ℚ → ℚ) (c : String)
    (hnd : ds.featCols.Nodup) (hc : c ∈ typedCols ds "Numerical")
    (hdisj : ∀ r ∈ ds.trainIdx, r ∉ ds.testIdx) :
    (∀ r ∈ ds.testIdx, ∀ v : ℚ, ds.processed r c = Cell.num v →
      (normalizationRun ds "standard" stdFn).processed r c =
        Cell.num ((v - qmean (trainColVals ds c)) / stdFn (trainColVals ds c))) ∧
    (∀ r ∈ ds.trainIdx, ∀ v : ℚ, ds.processed r c = Cell.num v →
      (normalizationRun ds "standard" stdFn).processed r c =
        Cell.num ((v - qmean (trainColVals ds c)) / stdFn (trainColVals ds c))) ∧
    qmean (numVals (ds.trainIdx.map
      (fun r => (normalizationRun ds "standard" stdFn).processed r c))) = 0 ∧
    (stdFn (trainColVals ds c) ≠ 0 →
      stdFn (trainColVals ds c) * stdFn (trainColVals ds c) = sampleVar (trainColVals ds c) →
      2 ≤ (trainColVals ds c).length →
      sampleVar (numVals (ds.trainIdx.map
        (fun r => (normalizationRun ds "standard" stdFn).processed r c))) = 1) := by
  have hcf : c ∈ ds.featCols := mem_typedCols ds "Numerical" c hc
  have hndN : (typedCols ds "Numerical").Nodup := typedCols_nodup ds "Numerical" hnd
  have hfold := foldNorm_standard_mem stdFn c (typedCols ds "Numerical") hndN hc
    (getXtrain ds, getXtest ds)
  have hshape := foldNorm_shape "standard" stdFn (typedCols ds "Numerical")
    (getXtrain ds, getXtest ds)
  set T := (typedCols ds "Numerical").foldl (normStep "standard" stdFn)
    (getXtrain ds, getXtest ds) with hT
  set g : ℚ → ℚ := fun v => (v - qmean (trainColVals ds c)) / stdFn (trainColVals ds c)
    with hg
  have hgfold : ∀ r, T.1.entry r c = cellMapNum g (ds.processed r c) ∧
      T.2.entry r c = cellMapNum g (ds.processed r c) := by
    intro r
    have h1 := (hfold r).1
    have h2 := (hfold r).2
    rw [show colCells (getXtrain ds, getXtest ds).1 c = colCells (getXtrain ds) c from rfl]
      at h1 h2
    exact ⟨h1, h2⟩
  have htest : ∀ r ∈ ds.testIdx,
      (normalizationRun ds "standard" stdFn).processed r c =
        cellMapNum g (ds.processed r c) := by
    intro r hr
    show (setDataXtest (setDataXtrain ds T.1) T.2).processed r c = _
    simp only [setDataXtest, setDataXtrain]
    rw [if_pos ⟨hr, hcf⟩, if_pos ⟨by rw [hshape.2.2.1]; exact hr, by rw [hshape.2.2.2]; exact hcf⟩]
    exact (hgfold r).2
  have htrain : ∀ r ∈ ds.trainIdx,
      (normalizationRun ds "standard" stdFn).processed r c =
        cellMapNum g (ds.processed r c) := by
    intro r hr
    show (setDataXtest (setDataXtrain ds T.1) T.2).processed r c = _
    simp only [setDataXtest, setDataXtrain]
    rw [if_neg (fun hcontra => (hdisj r hr) hcontra.1), if_pos ⟨hr, hcf⟩,
      if_pos ⟨by rw [hshape.1]; exact hr, by rw [hshape.2.1]; exact hcf⟩]
    exact (hgfold r).1
  have hlist : ds.trainIdx.map (fun r => (normalizationRun ds "standard" stdFn).processed r c) =
      (ds.trainIdx.map (fun r => ds.processed r c)).map (cellMapNum g) := by
    rw [List.map_map]
    exact List.map_congr_left (fun r hr => htrain r hr)
  have hvals : numVals (ds.trainIdx.map
      (fun r => (normalizationRun ds "standard" stdFn).processed r c)) =
      (trainColVals ds c).map g := by
    rw [hlist, numVals_map_cellMapNum]
    rfl
  refine ⟨?_, ?_, ?_, ?_⟩
  · intro r hr v hv
    rw [htest r hr, hv]
    rfl
  · intro r hr v hv
    rw [htrain r hr, hv]
    rfl
  · rw [hvals, hg]
    exact qmean_standardized (trainColVals ds c) (stdFn (trainColVals ds c))
  · intro hs hvar hlen
    rw [hvals, hg]
    exact sampleVar_standardized (trainColVals ds c) (stdFn (trainColVals ds c)) hs
      hvar hlen

/-- Witness for C2 on dsC2, whose train column 0,2,4 has mean 2 and
sample variance 4, with the exact square root 2: the test entry 1 becomes
(1 - 2) / 2, the transformed train mean is 0 and its sample variance 1. -/
theorem standard_normalization_train_params_witness :
    (normalizationRun dsC2 "standard" stdTwo).processed 3 "v" = Cell.num (-(1 / 2)) ∧
    qmean (numVals (dsC2.trainIdx.map
      (fun r => (normalizationRun dsC2 "standard" stdTwo).processed r "v"))) = 0 ∧
    sampleVar (numVals (dsC2.trainIdx.map
      (fun r => (normalizationRun dsC2 "standard" stdTwo).processed r "v"))) = 1 := by
  have hm : qmean (trainColVals dsC2 "v") = 2 := by
    norm_num [trainColVals, dsC2, vC2, getXtrain, colCells, numVals, cellNum, qmean,
      List.filterMap_cons, List.filterMap_nil]
  have hth := standard_normalization_train_params dsC2 stdTwo "v" (by decide) (by decide)
    (by decide)
  refine ⟨?_, hth.2.2.1, ?_⟩
  · have h1 := hth.1 3 (by decide) 1 (by decide)
    rw [hm] at h1
    rw [h1]
    norm_num [stdTwo]
  · refine hth.2.2.2 (by norm_num [stdTwo]) ?_ ?_
    · norm_num [stdTwo, trainColVals, dsC2, vC2, getXtrain, colCells, numVals, cellNum,
        sampleVar, qmean, List.filterMap_cons, List.filterMap_nil]
    · norm_num [trainColVals, dsC2, vC2, getXtrain, colCells, numVals, cellNum,
        List.filterMap_cons, List.filterMap_nil]

theorem pySplit_ne_nil (sep : Char) (cs : List Char) : pySplit sep cs ≠ [] := by
  cases cs with
  | nil => simp [pySplit]
  | cons c rest =>
    unfold pySplit
    by_cases h : c = sep
    · simp [h]
    · rw [if_neg h]
      cases hp : pySplit sep rest with
      | nil => simp
      | cons p ps => simp

theorem joinSep_pySplit (sep : Char) : ∀ cs : List Char,
    joinSep sep (pySplit sep cs) = cs := by
  intro cs
  induction cs with
  | nil => rfl
  | cons c rest ih =>
    unfold pySplit
    by_cases h : c = sep
    · rw [if_pos h]
      cases hp : pySplit sep rest with
      | nil => exact absurd hp (pySplit_ne_nil sep rest)
      | cons p ps =>
        rw [hp] at ih
        show sep :: joinSep sep (p :: ps) = c :: rest
        rw [ih, h]
    · rw [if_neg h]
      cases hp : pySplit sep rest with
      | nil => exact absurd hp (pySplit_ne_nil sep rest)
      | cons p ps =>
        rw [hp] at ih
        cases ps with
        | nil =>
          show c :: p = c :: rest
          rw [show joinSep sep [p] = p from rfl] at ih
          rw [ih]
        | cons q qs =>
          show (c :: p) ++ sep :: joinSep sep (q :: qs) = c :: rest
          rw [show joinSep sep (p :: q :: qs) = p ++ sep :: joinSep sep (q :: qs) from rfl] at ih
          rw [List.cons_append, ih]

theorem string_data_eq (s t : String) (h : s.data = t.data) : s = t := by
  cases s
  cases t
  exact congrArg String.mk h

theorem all_isRowIn_cols (ds : DS) (l : List String) (h : l ≠ []) :
    (l.map Label.col).all (isRowIn ds) = false := by
  cases l with
  | nil => exact absurd rfl h
  | cons a l => simp [isRowIn]

theorem all_isColIn_rows (ds : DS) (l : List Nat) (h : l ≠ []) :
    (l.map Label.row).all (isColIn ds) = false := by
  cases l with
  | nil => exact absurd rfl h
  | cons a l => simp [isColIn]

theorem locSelect_fail_left (ds : DS) (inst cls : List Label)
    (h : inst.all (isRowIn ds) = false) : (locSelect ds inst cls).isOk = false := by
  unfold locSelect
  rw [h, Bool.false_and]
  rfl

theorem locSelect_fail_right (ds : DS) (inst cls : List Label)
    (h : cls.all (isColIn ds) = false) : (locSelect ds inst cls).isOk = false := by
  unfold locSelect
  rw [h, Bool.and_false]
  rfl

theorem subsetsLookup_X (ds : DS) :
    subsetsLookup ds "X".data = some (ds.featCols.map Label.col) := by
  unfold subsetsLookup
  rw [if_pos rfl]

theorem subsetsLookup_y (ds : DS) :
    subsetsLookup ds "y".data = some (ds.labelCols.map Label.col) := by
  unfold subsetsLookup
  rw [if_neg (by decide), if_pos rfl]

theorem subsetsLookup_train (ds : DS) :
    subsetsLookup ds "train".data = some (ds.trainIdx.map Label.row) := by
  unfold subsetsLookup
  rw [if_neg (by decide), if_neg (by decide), if_pos rfl]

theorem subsetsLookup_test (ds : DS) :
    subsetsLookup ds "test".data = some (ds.testIdx.map Label.row) := by
  unfold subsetsLookup
  rw [if_neg (by decide), if_neg (by decide), if_neg (by decide), if_pos rfl]

theorem subsetsLookup_other (ds : DS) (k : List Char) (h1 : k ≠ "X".data)
    (h2 : k ≠ "y".data) (h3 : k ≠ "train".data) (h4 : k ≠ "test".data) :
    subsetsLookup ds k = none := by
  unfold subsetsLookup
  rw [if_neg h1, if_neg h2, if_neg h3, if_neg h4]

/-- C6: get_data with a subset key outside the recognized set always
signals an error on a dataset with nonempty feature and label column sets
and nonempty train and test selections: a simple unknown key leaves the
selection variables unassigned, a compound key with an unknown part fails
the subsets lookup, a key with more than one underscore fails the
two-way unpacking, and the remaining wrong compounds (such as train_test
or X_y) put column names where loc expects row labels or row labels where
loc expects column names. -/
theorem getData_unknown_key_errors (ds : DS) (s : String)
    (h1 : ds.featCols ≠ []) (h2 : ds.labelCols ≠ [])
    (h3 : ds.trainIdx ≠ []) (h4 : ds.testIdx ≠ [])
    (hs : s ∉ recognizedKeys) :
    (getData ds s).isOk = false := by
  have hsimp : ¬s = "" ∧ ¬s = "all" ∧ ¬s = "data" ∧ ¬s = "X" ∧ ¬s = "y" ∧ ¬s = "train" ∧
      ¬s = "test" ∧ ¬s = "X_train" ∧ ¬s = "X_test" ∧ ¬s = "y_train" ∧ ¬s = "y_test" := by
    simp only [recognizedKeys, List.mem_cons, List.not_mem_nil, or_false] at hs
    push_neg at hs
    exact hs
  obtain ⟨hne, hall, hdata, hX, hy, htrain, htest, hXtr, hXte, hytr, hyte⟩ := hsimp
  unfold getData
  simp only [Bind.bind, Except.bind]
  unfold resolveSubsets
  cases hp : pySplit '_' s.data with
  | nil => exact absurd hp (pySplit_ne_nil '_' s.data)
  | cons p0 ps =>
    cases ps with
    | nil =>
      simp only [List.length_cons, List.length_nil]
      rw [if_neg (by omega)]
      rw [if_neg (by simp [hne, hall, hdata]), if_neg hX, if_neg hy, if_neg htrain,
        if_neg htest]
      rfl
    | cons p1 ps2 =>
      cases ps2 with
      | nil =>
        simp only [List.length_cons, List.length_nil]
        rw [if_pos (by omega)]
        have hjoin : p0 ++ '_' :: p1 = s.data := by
          have hj := joinSep_pySplit '_' s.data
          rw [hp] at hj
          exact hj
        by_cases hi1 : p1 = "X".data
        · rw [hi1, subsetsLookup_X]
          cases hc0 : subsetsLookup ds p0 with
          | none => rfl
          | some cls =>
            exact locSelect_fail_left ds _ cls (all_isRowIn_cols ds ds.featCols h1)
        · by_cases hi2 : p1 = "y".data
          · rw [hi2, subsetsLookup_y]
            cases hc0 : subsetsLookup ds p0 with
            | none => rfl
            | some cls =>
              exact locSelect_fail_left ds _ cls (all_isRowIn_cols ds ds.labelCols h2)
          · by_cases hi3 : p1 = "train".data
            · rw [hi3, subsetsLookup_train]
              by_cases hc1 : p0 = "X".data
              · exact absurd (string_data_eq s "X_train"
                  (by rw [← hjoin, hc1, hi3]; rfl)) hXtr
              · by_cases hc2 : p0 = "y".data
                · exact absurd (string_data_eq s "y_train"
                    (by rw [← hjoin, hc2, hi3]; rfl)) hytr
                · by_cases hc3 : p0 = "train".data
                  · rw [hc3, subsetsLookup_train]
                    exact locSelect_fail_right ds _ _ (all_isColIn_rows ds ds.trainIdx h3)
                  · by_cases hc4 : p0 = "test".data
                    · rw [hc4, subsetsLookup_test]
                      exact locSelect_fail_right ds _ _ (all_isColIn_rows ds ds.testIdx h4)
                    · rw [subsetsLookup_other ds p0 hc1 hc2 hc3 hc4]
                      rfl
            · by_cases hi4 : p1 = "test".data
              · rw [hi4, subsetsLookup_test]
                by_cases hc1 : p0 = "X".data
                · exact absurd (string_data_eq s "X_test"
                    (by rw [← hjoin, hc1, hi4]; rfl)) hXte
                · by_cases hc2 : p0 = "y".data
                  · exact absurd (string_data_eq s "y_test"
                      (by rw [← hjoin, hc2, hi4]; rfl)) hyte
                  · by_cases hc3 : p0 = "train".data
                    · rw [hc3, subsetsLookup_train]
                      exact locSelect_fail_right ds _ _ (all_isColIn_rows ds ds.trainIdx h3)
                    · by_cases hc4 : p0 = "test".data
                      · rw [hc4, subsetsLookup_test]
                        exact locSelect_fail_right ds _ _ (all_isColIn_rows ds ds.testIdx h4)
                      · rw [subsetsLookup_other ds p0 hc1 hc2 hc3 hc4]
                        rfl
              · rw [subsetsLookup_other ds p1 hi1 hi2 hi3 hi4]
                rfl
      | cons p2 ps3 =>
        simp only [List.length_cons]
        rw [if_pos (by omega)]
        rfl

/-- Witness for C6: the unknown subset key foo errors on the dataset
dsC8, which has features, labels, and a train/test split. -/
theorem getData_unknown_key_errors_witness : (getData dsC8 "foo").isOk = false :=
  getData_unknown_key_errors dsC8 "foo" (by decide) (by decide) (by decide) (by decide)
    (by decide)

end MediChal
